import Mathlib

/-!
# A verification development for the proglog commit-log service

Shallow embedding of the repository's data model and operations:

* `Proglog.Authorize` embeds `internal/auth.Authorizer.Authorize` (present in
  the sources), with casbin's `Enforcer.Enforce` abstracted as a function
  returning either an evaluation error or a boolean verdict.
* The segmented log (`Store`/`Index`/`Segment`/`Log`, package `internal/log`)
  and the gRPC dispatch layer (`internal/server`) are not among the given
  sources; they are modelled from the specification (sections 3, 4.3, 4.4 and
  4.6 of `spec.md`), with each such definition marked `Modelled from the spec`.
* `cmd/server/main.go` is present in the sources and is embedded as the
  transport configuration it actually builds.

Machine integers (`uint64` offsets) are modelled as `Nat`: the Go code never
relies on wrap-around for offsets assigned by the log, and all arithmetic the
claims touch stays far below `2^64`.
-/

namespace Proglog

/-- gRPC status codes, restricted to the codes the service distinguishes.
`unknown` stands for the code gRPC assigns to a plain (non-status) Go error;
`offsetOutOfRange` stands for the distinguished code carried by
`api.ErrOffsetOutOfRange`. -/
inductive Code where
  | unknown
  | permissionDenied
  | offsetOutOfRange
  deriving DecidableEq, Repr

/-- A gRPC status: a code together with a diagnostic message. A Go `error`
value surfaced to a gRPC client is always seen as such a status; a plain
error that is not a status carries code `unknown`. -/
structure Status where
  code : Code
  msg : String
  deriving DecidableEq, Repr

/-- The result of casbin's `Enforcer.Enforce(subject, object, action)`:
either an evaluation error (the `err != nil` branch) or a boolean verdict.
The policy is fixed at `Authorizer` construction, so an enforcer is a pure
function of the three inputs. -/
def Enforcer : Type := String → String → String → Except String Bool

/-- Embedding of `internal/auth.Authorizer.Authorize` (from the sources):

```go
func (a *Authorizer) Authorize(subject, object, action string) error {
    if enforced, err := a.enforcer.Enforce(subject, object, action); err != nil {
        return err
    } else if !enforced {
        msg := fmt.Sprintf("%s not permitted to %s to %s", subject, object, action)
        st := status.New(codes.PermissionDenied, msg)
        return st.Err()
    }
    return nil
}
```

`none` is the `nil` return (permit). On an evaluation error the raw error is
returned unchanged; as a gRPC status it carries code `unknown`, since it was
not built with `status.New`. On a deny verdict a `PermissionDenied` status is
returned whose message interpolates subject, object and action. -/
def Authorize (enforce : Enforcer) (subject object action : String) : Option Status :=
  match enforce subject object action with
  | .error e => some ⟨Code.unknown, e⟩
  | .ok true => none
  | .ok false =>
      some ⟨Code.permissionDenied,
        subject ++ " not permitted to " ++ object ++ " to " ++ action⟩

/-- Embedding of the `Authorizer` struct (from the sources): it holds only the
enforcer built once by `auth.New`. -/
structure Authorizer where
  enforcer : Enforcer

/-- The `Authorize` method viewed as a state transformer on the `Authorizer`
receiver. The Go method body only reads `a.enforcer` and assigns to no field,
so the embedded method returns the receiver unchanged. -/
def Authorizer.authorize (a : Authorizer) (subject object action : String) :
    Option Status × Authorizer :=
  (Authorize a.enforcer subject object action, a)

/-! ## The segmented log

`internal/log` is not among the given sources; the definitions below are
modelled from spec.md sections 3, 4.3 and 4.4. Record values are byte lists
(`List Nat`), and the Store/Index pair inside a segment is abstracted to the
sequence of record values the pair holds, in offset order: the claims under
verification are about offsets, record values and error classes, none of which
depend on byte positions inside the store file. -/

/-- A record: opaque value bytes plus the offset assigned by the log
(spec section 3). -/
structure Record where
  value : List Nat
  offset : Nat
  deriving DecidableEq, Repr

/-- Modelled from the spec: log configuration. The spec's "maxed" condition
(store bytes or index entries reaching a configured maximum, section 4.3) is
modelled by its entry-count form: a segment is maxed once it holds
`maxSegmentEntries` records. -/
structure Config where
  maxSegmentEntries : Nat
  deriving DecidableEq, Repr

/-- Modelled from the spec: a segment covering the contiguous offset range
starting at `baseOffset` (spec section 3). `entries` lists the values stored
in the segment's Store/Index pair, in offset order: the record at absolute
offset `baseOffset + i` has value `entries[i]`. -/
structure Segment where
  baseOffset : Nat
  entries : List (List Nat)
  deriving DecidableEq, Repr

/-- `next_offset`: the absolute offset the segment assigns on its next append;
spec section 3 invariant `next_offset - base_offset = number of index entries`. -/
def Segment.nextOffset (s : Segment) : Nat :=
  s.baseOffset + s.entries.length

/-- Modelled from the spec: `Segment.IsMaxed` (section 4.3), in its
entry-count form. -/
def Segment.isMaxed (c : Config) (s : Segment) : Bool :=
  c.maxSegmentEntries ≤ s.entries.length

/-- Modelled from the spec: `Segment.Append` (section 4.3): the record is
stored at offset `nextOffset`, which is returned as the assigned offset. -/
def Segment.append (s : Segment) (v : List Nat) : Nat × Segment :=
  (s.nextOffset, { s with entries := s.entries ++ [v] })

/-- Errors produced by the log layer (spec section 7): the distinguished
`OffsetOutOfRange`, and storage I/O errors propagated unchanged. -/
inductive LogError where
  | offsetOutOfRange
  | storageError (msg : String)
  deriving DecidableEq, Repr

/-- Modelled from the spec: the `Log` (section 4.4) — an ordered sequence of
segments with exactly one active (writable) segment, always the last. The
non-active segments are `closed`, the last one is `active`; the full sequence
is `closed ++ [active]`. -/
structure Log where
  config : Config
  closed : List Segment
  active : Segment
  deriving DecidableEq, Repr

/-- The full segment sequence, in base-offset order; the active segment is
last (spec section 3). -/
def Log.segments (l : Log) : List Segment :=
  l.closed ++ [l.active]

/-- Modelled from the spec: a fresh log over an empty directory creates one
segment at base offset 0 (section 4.4, Construction). -/
def Log.newLog (c : Config) : Log :=
  ⟨c, [], ⟨0, []⟩⟩

/-- The log's next-append offset: the active segment's `next_offset`
(spec section 3). -/
def Log.nextOffset (l : Log) : Nat :=
  l.active.nextOffset

/-- `LowestOffset`: the first segment's base offset (spec section 4.4). -/
def Log.lowestOffset (l : Log) : Nat :=
  match l.closed with
  | [] => l.active.baseOffset
  | s :: _ => s.baseOffset

/-- `HighestOffset`: `active.next_offset - 1` (spec section 4.4); on an empty
log the `Nat` truncated subtraction plays the spec's empty-log sentinel. -/
def Log.highestOffset (l : Log) : Nat :=
  l.nextOffset - 1

/-- Modelled from the spec: `Log.Append` (section 4.4): delegate to the active
segment; if that leaves it maxed, immediately rotate — create a new segment
with `base_offset = active.next_offset` and make it the active one. -/
def Log.append (l : Log) (v : List Nat) : Nat × Log :=
  let (off, a) := l.active.append v
  if a.isMaxed l.config then
    (off, { l with closed := l.closed ++ [a], active := ⟨a.nextOffset, []⟩ })
  else
    (off, { l with active := a })

/-- Modelled from the spec: `Log.Read` (section 4.4): fail with
`OffsetOutOfRange` if `offset >= active.next_offset` or
`offset < segments[0].base_offset`; otherwise locate the segment `s` with
`s.base_offset <= offset < s.next_offset` by a linear search over the ordered
segments and read the store entry the index maps the relative offset to. -/
def Log.read (l : Log) (off : Nat) : Except LogError Record :=
  if l.nextOffset ≤ off ∨ off < l.lowestOffset then
    .error .offsetOutOfRange
  else
    match l.segments.find? (fun s => decide (s.baseOffset ≤ off ∧ off < s.nextOffset)) with
    | some s =>
        match s.entries[off - s.baseOffset]? with
        | some v => .ok ⟨v, off⟩
        | none => .error .offsetOutOfRange
    | none => .error .offsetOutOfRange

/-- Modelled from the spec: `Log.Truncate(lowest)` (section 4.4): remove every
segment whose `next_offset <= lowest`, but never the active segment. -/
def Log.truncate (l : Log) (lowest : Nat) : Log :=
  { l with closed := l.closed.filter (fun s => decide (lowest < s.nextOffset)) }

/-- Sequential appends, returning the assigned offsets in order together with
the final log. -/
def Log.appendAll (l : Log) (vs : List (List Nat)) : List Nat × Log :=
  match vs with
  | [] => ([], l)
  | v :: rest =>
      let (off, l₁) := l.append v
      let (offs, l₂) := l₁.appendAll rest
      (off :: offs, l₂)

/-! ## Well-formedness: contiguous segment chains -/

/-- `chainFrom b segs`: the segments tile the offset space contiguously
starting at `b` — each segment's base offset is the previous one's
`next_offset` (spec section 3 invariant on `segments[i].base_offset`). -/
def chainFrom : Nat → List Segment → Prop
  | _, [] => True
  | b, s :: rest => s.baseOffset = b ∧ chainFrom s.nextOffset rest

/-- Where a chain starting at `b` ends: the `next_offset` after the last
segment. -/
def endOff (b : Nat) : List Segment → Nat
  | [] => b
  | s :: rest => endOff s.nextOffset rest

/-- All record values held by a segment sequence, in offset order. -/
def segValues (segs : List Segment) : List (List Nat) :=
  (segs.map Segment.entries).flatten

/-- A well-formed log: its segment sequence is a contiguous chain starting at
its lowest offset. -/
def Log.WF (l : Log) : Prop :=
  chainFrom l.lowestOffset l.segments

/-- All record values in the log, in offset order: the value at list position
`i` sits at absolute offset `lowestOffset + i`. -/
def Log.values (l : Log) : List (List Nat) :=
  segValues l.segments

/-! ## The request dispatch layer

`internal/server`'s gRPC handlers are not among the given sources (only their
test is); the definitions below are modelled from spec.md section 4.6. The
`subject` argument of each handler stands for the caller identity the
transport layer derives from the verified client certificate. -/

/-- The resource name used in authorization checks (spec section 4.6:
`Authorize(subject, resource="log", action)`). -/
def logObject : String := "log"

/-- The action name for produce operations. -/
def produceAction : String := "produce"

/-- The action name for consume operations. -/
def consumeAction : String := "consume"

/-- The dispatch layer's state: an authorizer and the shared commit log
(the `Config` handed to `NewGRPCServer` in the test sources). -/
structure Server where
  authorizer : Authorizer
  commitLog : Log

/-- Wire response of a Produce call: the assigned offset. -/
structure ProduceResponse where
  offset : Nat
  deriving DecidableEq, Repr

/-- Wire response of a Consume call: the full record. -/
structure ConsumeResponse where
  record : Record
  deriving DecidableEq, Repr

/-- Modelled from the spec (section 7, propagation policy): the dispatch layer
maps log errors to wire status codes 1:1 — `OffsetOutOfRange` keeps its
distinguished code, storage errors surface as plain errors. -/
def statusOfLogError : LogError → Status
  | .offsetOutOfRange => ⟨Code.offsetOutOfRange, "offset out of range"⟩
  | .storageError m => ⟨Code.unknown, m⟩

/-- Modelled from the spec (section 4.6): unary Produce. Authorize the
channel-derived subject; on deny return the error immediately without touching
the log (the response side of the pair is an error, so no payload is produced);
on permit append and answer with the assigned offset. -/
def Server.produce (srv : Server) (subject : String) (value : List Nat) :
    Except Status ProduceResponse × Server :=
  match Authorize srv.authorizer.enforcer subject logObject produceAction with
  | some st => (.error st, srv)
  | none =>
      let (off, l) := srv.commitLog.append value
      (.ok ⟨off⟩, { srv with commitLog := l })

/-- Modelled from the spec (section 4.6): unary Consume. Authorize the subject;
on deny return the error without touching the log; on permit read the offset
and translate the result 1:1. -/
def Server.consume (srv : Server) (subject : String) (offset : Nat) :
    Except Status ConsumeResponse :=
  match Authorize srv.authorizer.enforcer subject logObject consumeAction with
  | some st => .error st
  | none =>
      match srv.commitLog.read offset with
      | .ok r => .ok ⟨r⟩
      | .error e => .error (statusOfLogError e)

/-- Modelled from the spec (section 4.6): the produce-stream loop. Every
inbound message re-runs the single-call gate (`Server.produce`); each response
carries the offset assigned to its request, in order; an error terminates the
stream. -/
def Server.produceStream (srv : Server) (subject : String) (values : List (List Nat)) :
    List (Except Status ProduceResponse) × Server :=
  match values with
  | [] => ([], srv)
  | v :: rest =>
      match srv.produce subject v with
      | (.error st, srv₁) => ([.error st], srv₁)
      | (.ok res, srv₁) =>
          let (ress, srv₂) := srv₁.produceStream subject rest
          (.ok res :: ress, srv₂)

/-- What one iteration of the consume-stream loop does: send a record and
advance the cursor, wait and retry the same cursor, or terminate (with a
status, or with `none` for client cancellation). -/
inductive StreamEvent where
  | send (res : ConsumeResponse) (next : Nat)
  | waitRetry (next : Nat)
  | terminated (st : Option Status)
  deriving DecidableEq, Repr

/-- Modelled from the spec (section 4.6): one iteration of the consume-stream
loop at cursor `offset`. Exit on client cancellation; on a successful read send
the record and advance; on `OffsetOutOfRange` do not terminate — wait (the
short delay is abstracted into the `waitRetry` event) and retry the same
offset; on any other error terminate the stream with that error. -/
def Server.consumeStreamStep (srv : Server) (subject : String) (cancelled : Bool)
    (offset : Nat) : StreamEvent :=
  if cancelled then .terminated none
  else
    match srv.consume subject offset with
    | .ok res => .send res (offset + 1)
    | .error st =>
        if st.code = Code.offsetOutOfRange then .waitRetry offset
        else .terminated (some st)

/-! ## Transport configuration -/

/-- Transport security of a listening endpoint. -/
inductive Transport where
  | plainHTTP
  | serverOnlyTLS
  | mutualTLS
  deriving DecidableEq, Repr

/-- An HTTP server as configured by `cmd/server/main.go`. -/
structure HTTPServer where
  addr : String
  transport : Transport
  deriving DecidableEq, Repr

/-- Embedding of `cmd/server/main.go` (from the sources):

```go
func main() {
    srv := server.NewHTTPServer(":8080")
    log.Fatal(srv.ListenAndServe())
}
```

`main` passes no certificate, key or CA material, and serves with
`ListenAndServe` — `net/http`'s cleartext listener — so the entrypoint's
transport is plain HTTP. -/
def mainHTTPServer : HTTPServer :=
  ⟨":8080", Transport.plainHTTP⟩

/-- The TLS parameters handed to `config.SetupTLSConfig`, as in the test
sources (`setupTest`). -/
structure TLSConfig where
  certFile : String
  keyFile : String
  caFile : String
  serverAddress : String
  server : Bool
  deriving DecidableEq, Repr

/-- Embedding of the server-side TLS configuration built in `setupTest` (from
the sources): the server certificate pair, the CA used to verify client
certificates, and `Server: true`. -/
def setupTestServerTLS : TLSConfig :=
  ⟨"ServerCertFile", "ServerKeyFile", "CAFile", "listener address", true⟩

/-- Modelled from the spec: `config.SetupTLSConfig` (package `internal/config`,
not among the sources) with `Server: true` and a client CA yields a transport
that requires and verifies client certificates — mutually authenticated TLS
(spec section 6: "Transport requires mutually authenticated encrypted
channels"); without a CA it could only authenticate the server side. -/
def TLSConfig.transport (c : TLSConfig) : Transport :=
  if c.server ∧ c.caFile ≠ "" then Transport.mutualTLS
  else Transport.serverOnlyTLS

/-! ## Concrete identities, policies and byte strings for witnesses -/

/-- Byte encoding of a text payload. -/
def strBytes (s : String) : List Nat :=
  s.toList.map Char.toNat

/-- The test payload `"hello world"`. -/
def helloWorld : List Nat := strBytes "hello world"

/-- A policy under which the subject is permitted everything — the `root`
client of the test sources. -/
def rootEnforcer : Enforcer := fun _ _ _ => .ok true

/-- A policy under which the subject is permitted nothing (casbin returns a
`false` verdict without error) — the `nobody` client of the test sources. -/
def nobodyEnforcer : Enforcer := fun _ _ _ => .ok false

/-- A policy source whose evaluation fails outright. -/
def failingEnforcer : Enforcer := fun _ _ _ => .error "policy evaluation failed"

/-- A fresh server whose policy permits everything. -/
def rootServer (c : Config) : Server :=
  ⟨⟨rootEnforcer⟩, Log.newLog c⟩

/-- A fresh server whose policy denies everything. -/
def nobodyServer (c : Config) : Server :=
  ⟨⟨nobodyEnforcer⟩, Log.newLog c⟩

/-- The two test-stream payloads. -/
def msgA : List Nat := strBytes "first message"

/-- The second test-stream payload. -/
def msgB : List Nat := strBytes "second message"

/-- A demonstration log for truncation: two-entry segments, three records
appended, so one closed segment covering offsets [0, 2) and an active segment
holding offset 2. -/
def truncDemoLog : Log :=
  ((Log.newLog ⟨2⟩).appendAll [[0], [1], [2]]).2

/-! ## Chain lemmas -/

theorem chainFrom_append (b : Nat) (xs ys : List Segment) :
    chainFrom b (xs ++ ys) ↔ chainFrom b xs ∧ chainFrom (endOff b xs) ys := by
  induction xs generalizing b with
  | nil => simp [chainFrom, endOff]
  | cons s xs ih => simp [chainFrom, endOff, ih, and_assoc]

theorem endOff_append (b : Nat) (xs ys : List Segment) :
    endOff b (xs ++ ys) = endOff (endOff b xs) ys := by
  induction xs generalizing b with
  | nil => rfl
  | cons s xs ih => simp [endOff, ih]

theorem endOff_eq_add_length (b : Nat) (segs : List Segment) (h : chainFrom b segs) :
    endOff b segs = b + (segValues segs).length := by
  induction segs generalizing b with
  | nil => simp [endOff, segValues]
  | cons s rest ih =>
      obtain ⟨hb, hc⟩ := h
      have := ih s.nextOffset hc
      simp only [endOff, segValues, List.map_cons, List.flatten_cons,
        List.length_append] at *
      unfold Segment.nextOffset at *
      omega

theorem chainFrom_le_nextOffset (b : Nat) (segs : List Segment) (h : chainFrom b segs) :
    ∀ s ∈ segs, b ≤ s.nextOffset := by
  induction segs generalizing b with
  | nil => intro s hs; cases hs
  | cons t rest ih =>
      obtain ⟨hb, hc⟩ := h
      intro s hs
      rcases List.mem_cons.1 hs with h1 | h1
      · subst h1
        unfold Segment.nextOffset
        omega
      · have h2 := ih t.nextOffset hc s h1
        unfold Segment.nextOffset at *
        omega

/-- The segment located by `Log.Read`'s linear search holds, at the relative
offset, exactly the entry the flattened value sequence holds at `off - b`. -/
theorem find?_getElem (segs : List Segment) (b off : Nat) (h : chainFrom b segs)
    (hb : b ≤ off) (hlt : off < endOff b segs) :
    ∃ s, segs.find? (fun s => decide (s.baseOffset ≤ off ∧ off < s.nextOffset)) = some s ∧
      s.entries[off - s.baseOffset]? = (segValues segs)[off - b]? := by
  induction segs generalizing b with
  | nil =>
      simp only [endOff] at hlt
      omega
  | cons s rest ih =>
      obtain ⟨hbase, hchain⟩ := h
      by_cases hcase : off < s.nextOffset
      · refine ⟨s, ?_, ?_⟩
        · exact List.find?_cons_of_pos _ (by simp [hbase, hb, hcase])
        · have hlen : off - b < s.entries.length := by
            unfold Segment.nextOffset at hcase
            omega
          simp only [segValues, List.map_cons, List.flatten_cons]
          rw [List.getElem?_append, if_pos hlen, hbase]
      · have hnle : s.nextOffset ≤ off := le_of_not_lt hcase
        obtain ⟨t, ht1, ht2⟩ := ih s.nextOffset hchain hnle hlt
        refine ⟨t, ?_, ?_⟩
        · rw [List.find?_cons_of_neg _ (by simp [hcase])]
          exact ht1
        · rw [ht2]
          simp only [segValues, List.map_cons, List.flatten_cons]
          rw [List.getElem?_append_right (by unfold Segment.nextOffset at hnle; omega)]
          congr 1
          unfold Segment.nextOffset at *
          omega

/-! ## Log-level facts -/

theorem Log.endOff_segments (l : Log) : endOff l.lowestOffset l.segments = l.nextOffset := by
  rw [Log.segments, endOff_append]
  rfl

theorem Log.values_length (l : Log) (h : l.WF) :
    l.lowestOffset + l.values.length = l.nextOffset := by
  have h1 := endOff_eq_add_length l.lowestOffset l.segments h
  rw [Log.endOff_segments] at h1
  exact h1.symm

theorem Log.read_oor (l : Log) (off : Nat)
    (h : l.nextOffset ≤ off ∨ off < l.lowestOffset) :
    l.read off = .error .offsetOutOfRange := by
  unfold Log.read
  rw [if_pos h]

theorem Log.read_ok (l : Log) (off : Nat) (h : l.WF)
    (h1 : l.lowestOffset ≤ off) (h2 : off < l.nextOffset) :
    ∃ v, l.values[off - l.lowestOffset]? = some v ∧ l.read off = Except.ok ⟨v, off⟩ := by
  have hend : off < endOff l.lowestOffset l.segments := by
    rw [Log.endOff_segments]
    exact h2
  obtain ⟨s, hfind, heq⟩ := find?_getElem l.segments l.lowestOffset off h h1 hend
  have hlen : off - l.lowestOffset < l.values.length := by
    have := l.values_length h
    omega
  obtain ⟨v, hv⟩ : ∃ v, l.values[off - l.lowestOffset]? = some v :=
    ⟨_, List.getElem?_eq_getElem hlen⟩
  refine ⟨v, hv, ?_⟩
  unfold Log.read
  rw [if_neg (by omega)]
  have hv' : s.entries[off - s.baseOffset]? = some v := by
    rw [heq]
    exact hv
  rw [hfind]
  simp [hv']

theorem Log.read_oor_iff (l : Log) (off : Nat) (h : l.WF) :
    l.read off = .error .offsetOutOfRange ↔
      (l.nextOffset ≤ off ∨ off < l.lowestOffset) := by
  constructor
  · intro hr
    by_contra hno
    push_neg at hno
    obtain ⟨v, _, hok⟩ := l.read_ok off h (by omega) (by omega)
    rw [hok] at hr
    cases hr
  · exact l.read_oor off

/-! ## Append lemmas -/

theorem Log.WF_iff (l : Log) :
    l.WF ↔ chainFrom l.lowestOffset l.closed ∧
      l.active.baseOffset = endOff l.lowestOffset l.closed := by
  unfold Log.WF Log.segments
  rw [chainFrom_append]
  simp [chainFrom]

theorem Log.newLog_WF (c : Config) : (Log.newLog c).WF :=
  ⟨rfl, trivial⟩

theorem Log.newLog_nextOffset (c : Config) : (Log.newLog c).nextOffset = 0 := rfl

theorem Log.newLog_lowestOffset (c : Config) : (Log.newLog c).lowestOffset = 0 := rfl

theorem Log.newLog_values (c : Config) : (Log.newLog c).values = [] := rfl

theorem Log.append_offset (l : Log) (v : List Nat) : (l.append v).1 = l.nextOffset := by
  unfold Log.append Segment.append
  dsimp only
  split <;> rfl

theorem Log.append_nextOffset (l : Log) (v : List Nat) :
    (l.append v).2.nextOffset = l.nextOffset + 1 := by
  unfold Log.append Segment.append Log.nextOffset Segment.nextOffset
  dsimp only
  split <;> simp <;> omega

theorem Log.append_lowest (l : Log) (v : List Nat) :
    (l.append v).2.lowestOffset = l.lowestOffset := by
  unfold Log.append Segment.append
  dsimp only
  split <;> cases hc : l.closed <;> simp [Log.lowestOffset, hc]

theorem Log.append_values (l : Log) (v : List Nat) :
    (l.append v).2.values = l.values ++ [v] := by
  unfold Log.append Segment.append Log.values Log.segments segValues
  dsimp only
  split <;> simp

theorem Log.append_WF (l : Log) (v : List Nat) (h : l.WF) : (l.append v).2.WF := by
  rw [Log.WF_iff] at h
  obtain ⟨h1, h2⟩ := h
  rw [Log.WF_iff, Log.append_lowest]
  unfold Log.append Segment.append
  dsimp only
  split
  · refine ⟨?_, ?_⟩
    · rw [chainFrom_append]
      exact ⟨h1, h2, trivial⟩
    · rw [endOff_append]
      rfl
  · exact ⟨h1, h2⟩

/-- Round-trip at the log layer: appending `v` assigns offset `o`, and reading
`o` back from the post-append log yields the record `⟨v, o⟩`. -/
theorem Log.append_read (l : Log) (v : List Nat) (h : l.WF) :
    (l.append v).2.read (l.append v).1 = Except.ok ⟨v, (l.append v).1⟩ := by
  have hWF := l.append_WF v h
  have hlow := l.append_lowest v
  have hnext := l.append_nextOffset v
  have hvals := l.append_values v
  have hlen := l.values_length h
  rw [l.append_offset v]
  have h1 : (l.append v).2.lowestOffset ≤ l.nextOffset := by omega
  have h2 : l.nextOffset < (l.append v).2.nextOffset := by omega
  obtain ⟨w, hw, hr⟩ := (l.append v).2.read_ok l.nextOffset hWF h1 h2
  have hw' : (l.values ++ [v])[l.values.length]? = some w := by
    rw [← hvals, ← hw]
    congr 1
    omega
  rw [List.getElem?_append_right (le_refl _)] at hw'
  simp at hw'
  rw [hr, hw']

/-! ## Sequential-append lemmas -/

theorem Log.appendAll_offsets (l : Log) (vs : List (List Nat)) :
    (l.appendAll vs).1 = List.range' l.nextOffset vs.length := by
  induction vs generalizing l with
  | nil => rfl
  | cons v rest ih =>
      show (l.append v).1 :: ((l.append v).2.appendAll rest).1 = _
      simp only [List.length_cons]
      rw [List.range'_succ, ih, l.append_offset, l.append_nextOffset]

theorem Log.appendAll_WF (l : Log) (vs : List (List Nat)) (h : l.WF) :
    (l.appendAll vs).2.WF := by
  induction vs generalizing l with
  | nil => exact h
  | cons v rest ih =>
      show ((l.append v).2.appendAll rest).2.WF
      exact ih _ (l.append_WF v h)

theorem Log.appendAll_values (l : Log) (vs : List (List Nat)) :
    (l.appendAll vs).2.values = l.values ++ vs := by
  induction vs generalizing l with
  | nil => simp [Log.appendAll]
  | cons v rest ih =>
      show ((l.append v).2.appendAll rest).2.values = _
      rw [ih, l.append_values]
      simp

theorem Log.appendAll_nextOffset (l : Log) (vs : List (List Nat)) :
    (l.appendAll vs).2.nextOffset = l.nextOffset + vs.length := by
  induction vs generalizing l with
  | nil => rfl
  | cons v rest ih =>
      show ((l.append v).2.appendAll rest).2.nextOffset = _
      rw [ih, l.append_nextOffset]
      simp only [List.length_cons]
      omega

theorem Log.appendAll_lowest (l : Log) (vs : List (List Nat)) :
    (l.appendAll vs).2.lowestOffset = l.lowestOffset := by
  induction vs generalizing l with
  | nil => rfl
  | cons v rest ih =>
      show ((l.append v).2.appendAll rest).2.lowestOffset = _
      rw [ih, l.append_lowest]

/-! ## Truncation lemmas -/

theorem segValues_append (xs ys : List Segment) :
    segValues (xs ++ ys) = segValues xs ++ segValues ys := by
  simp [segValues]

/-- Along a chain, `nextOffset` is monotone, so the segments `Truncate`
removes form a prefix: the kept segments are a suffix of the original list. -/
theorem chainFrom_filter_suffix (k b : Nat) (segs : List Segment)
    (h : chainFrom b segs) :
    ∃ xs, segs = xs ++ segs.filter (fun s => decide (k < s.nextOffset)) := by
  induction segs generalizing b with
  | nil => exact ⟨[], rfl⟩
  | cons s rest ih =>
      obtain ⟨hb, hc⟩ := h
      by_cases hk : k < s.nextOffset
      · refine ⟨[], ?_⟩
        have hall : ∀ t ∈ rest, k < t.nextOffset := fun t ht =>
          lt_of_lt_of_le hk (chainFrom_le_nextOffset s.nextOffset rest hc t ht)
        have : rest.filter (fun s => decide (k < s.nextOffset)) = rest :=
          List.filter_eq_self.2 (fun t ht => by simp [hall t ht])
        simp [List.filter_cons, hk, this]
      · obtain ⟨xs, hxs⟩ := ih s.nextOffset hc
        refine ⟨s :: xs, ?_⟩
        have hfc : (s :: rest).filter (fun s => decide (k < s.nextOffset)) =
            rest.filter (fun s => decide (k < s.nextOffset)) := by
          simp [List.filter_cons, hk]
        rw [hfc, List.cons_append, ← hxs]

theorem Log.lowestOffset_closed_nil (l : Log) (h : l.closed = []) :
    l.lowestOffset = l.active.baseOffset := by
  unfold Log.lowestOffset
  rw [h]

theorem Log.lowestOffset_closed_cons (l : Log) (c : Segment) (cs : List Segment)
    (h : l.closed = c :: cs) : l.lowestOffset = c.baseOffset := by
  unfold Log.lowestOffset
  rw [h]

theorem Log.truncate_active (l : Log) (k : Nat) : (l.truncate k).active = l.active := rfl

theorem Log.truncate_nextOffset (l : Log) (k : Nat) :
    (l.truncate k).nextOffset = l.nextOffset := rfl

/-- After truncation the log is still well-formed, and its value sequence is a
suffix of the pre-truncation one, shifted by exactly the growth of the lowest
offset. -/
theorem Log.truncate_spec (l : Log) (h : l.WF) (k : Nat) :
    (l.truncate k).WF ∧
      ∃ pre, l.values = pre ++ (l.truncate k).values ∧
        (l.truncate k).lowestOffset = l.lowestOffset + pre.length := by
  rw [Log.WF_iff] at h
  obtain ⟨h1, h2⟩ := h
  obtain ⟨xs, hxs⟩ := chainFrom_filter_suffix k l.lowestOffset l.closed h1
  have hcl : (l.truncate k).closed = l.closed.filter (fun s => decide (k < s.nextOffset)) := rfl
  have hch : chainFrom l.lowestOffset (xs ++ (l.truncate k).closed) := by
    rw [hcl, ← hxs]
    exact h1
  rw [chainFrom_append] at hch
  obtain ⟨hchxs, hchcf⟩ := hch
  have hseg : chainFrom (endOff l.lowestOffset xs) ((l.truncate k).closed ++ [l.active]) := by
    rw [chainFrom_append]
    refine ⟨hchcf, ?_, trivial⟩
    rw [← endOff_append, hcl, ← hxs]
    exact h2
  have hlow : (l.truncate k).lowestOffset = endOff l.lowestOffset xs := by
    cases hc : (l.truncate k).closed with
    | nil =>
        rw [hc] at hseg
        have hseg' : l.active.baseOffset = endOff l.lowestOffset xs ∧ True := hseg
        rw [(l.truncate k).lowestOffset_closed_nil hc, Log.truncate_active]
        exact hseg'.1
    | cons c rest =>
        rw [hc] at hseg
        have hseg' : c.baseOffset = endOff l.lowestOffset xs ∧
            chainFrom c.nextOffset (rest ++ [l.active]) := hseg
        rw [(l.truncate k).lowestOffset_closed_cons c rest hc]
        exact hseg'.1
  constructor
  · show chainFrom (l.truncate k).lowestOffset ((l.truncate k).closed ++ [(l.truncate k).active])
    rw [hlow, Log.truncate_active]
    exact hseg
  · refine ⟨segValues xs, ?_, ?_⟩
    · show segValues (l.closed ++ [l.active]) = _
      rw [hxs, ← hcl, List.append_assoc, segValues_append]
      rfl
    · rw [hlow, endOff_eq_add_length l.lowestOffset xs hchxs]

theorem Log.truncate_WF (l : Log) (h : l.WF) (k : Nat) : (l.truncate k).WF :=
  (l.truncate_spec h k).1

/-- Offsets at or above the post-truncation lowest offset and below the next
offset read exactly as they did before truncation. -/
theorem Log.truncate_read_eq (l : Log) (h : l.WF) (k o : Nat)
    (h1 : (l.truncate k).lowestOffset ≤ o) (h2 : o < l.nextOffset) :
    (l.truncate k).read o = l.read o := by
  obtain ⟨hWF, pre, hv, hlow⟩ := l.truncate_spec h k
  obtain ⟨v, hv1, hr1⟩ := (l.truncate k).read_ok o hWF h1
    (by rw [Log.truncate_nextOffset]; exact h2)
  obtain ⟨w, hw1, hr2⟩ := l.read_ok o h (by omega) h2
  rw [hr1, hr2]
  rw [hv, List.getElem?_append_right (by omega)] at hw1
  have harith : o - l.lowestOffset - pre.length = o - (l.truncate k).lowestOffset := by
    omega
  rw [harith, hv1] at hw1
  cases hw1
  rfl

/-! ## Dispatch-layer lemmas -/

theorem Server.produce_ok (srv : Server) (subject : String) (v : List Nat)
    (h : Authorize srv.authorizer.enforcer subject logObject produceAction = none) :
    srv.produce subject v =
      (.ok ⟨srv.commitLog.nextOffset⟩, { srv with commitLog := (srv.commitLog.append v).2 }) := by
  unfold Server.produce
  rw [h]
  show (Except.ok (ProduceResponse.mk (srv.commitLog.append v).1),
      ({ srv with commitLog := (srv.commitLog.append v).2 } : Server)) = _
  rw [srv.commitLog.append_offset v]

/-- The produce-stream is order-preserving: when the subject is permitted,
the responses are exactly the consecutively assigned offsets, in request
order. -/
theorem Server.produceStream_responses (srv : Server) (subject : String)
    (vs : List (List Nat))
    (h : Authorize srv.authorizer.enforcer subject logObject produceAction = none) :
    (srv.produceStream subject vs).1 =
      (List.range' srv.commitLog.nextOffset vs.length).map
        (fun o => Except.ok (ProduceResponse.mk o)) := by
  induction vs generalizing srv with
  | nil => rfl
  | cons v rest ih =>
      unfold Server.produceStream
      rw [Server.produce_ok srv subject v h]
      dsimp only
      simp only [List.length_cons]
      rw [List.range'_succ, List.map_cons]
      congr 1
      rw [ih { srv with commitLog := (srv.commitLog.append v).2 } h]
      rw [srv.commitLog.append_nextOffset v]

/-! ## Claim theorems -/

/-- C1, counterexample: when policy evaluation itself fails, `Authorize`
returns the raw evaluation error — a plain error whose gRPC code is
`unknown`, not a `PermissionDenied`-class error — contradicting the claim
that an evaluation failure is never surfaced as anything other than a
PermissionDenied-class denial. -/
theorem C1_eval_failure_not_permission_denied :
    Authorize failingEnforcer "nobody" "log" "produce" =
      some ⟨Code.unknown, "policy evaluation failed"⟩ ∧
    Code.unknown ≠ Code.permissionDenied :=
  ⟨rfl, fun h => Code.noConfusion h⟩

/-- C1 (amended): `Authorize(subject, object, action)` returns nil when the
policy permits the action; returns a PermissionDenied-class error carrying
subject, object and action when the policy verdict is deny; and when policy
evaluation itself fails it returns the evaluation error unchanged — never an
implicit permit, but a plain (`unknown`-code) error rather than a
PermissionDenied-class one. -/
theorem C1_authorize_spec (enforce : Enforcer) (subject object action : String) :
    (enforce subject object action = .ok true →
      Authorize enforce subject object action = none) ∧
    (enforce subject object action = .ok false →
      Authorize enforce subject object action =
        some ⟨Code.permissionDenied,
          subject ++ " not permitted to " ++ object ++ " to " ++ action⟩) ∧
    (∀ e, enforce subject object action = .error e →
      Authorize enforce subject object action = some ⟨Code.unknown, e⟩) := by
  refine ⟨fun h => ?_, fun h => ?_, fun e h => ?_⟩ <;> unfold Authorize <;> rw [h]

/-- Witness for C1: the three policy outcomes at concrete enforcers and a
concrete subject/object/action triple. -/
theorem C1_authorize_spec_witness :
    Authorize rootEnforcer "root" "log" "produce" = none ∧
    Authorize nobodyEnforcer "nobody" "log" "produce" =
      some ⟨Code.permissionDenied,
        "nobody" ++ " not permitted to " ++ "log" ++ " to " ++ "produce"⟩ ∧
    Authorize failingEnforcer "root" "log" "consume" =
      some ⟨Code.unknown, "policy evaluation failed"⟩ :=
  ⟨(C1_authorize_spec rootEnforcer "root" "log" "produce").1 rfl,
   (C1_authorize_spec nobodyEnforcer "nobody" "log" "produce").2.1 rfl,
   (C1_authorize_spec failingEnforcer "root" "log" "consume").2.2
     "policy evaluation failed" rfl⟩

/-- C2: round-trip — on any well-formed log, appending value `v` assigns an
offset `o` such that reading `o` back returns a record with exactly the value
`v` and offset `o`; concretely, producing "hello world" on a fresh permissive
server answers offset 0, and consuming offset 0 returns "hello world" at
offset 0. -/
theorem C2_round_trip (l : Log) (h : l.WF) (v : List Nat) :
    ((l.append v).2.read (l.append v).1 = Except.ok ⟨v, (l.append v).1⟩) ∧
    ((rootServer ⟨1024⟩).produce "root" helloWorld).1 = .ok ⟨0⟩ ∧
    ((rootServer ⟨1024⟩).produce "root" helloWorld).2.consume "root" 0 =
      .ok ⟨⟨helloWorld, 0⟩⟩ :=
  ⟨l.append_read v h, rfl, rfl⟩

/-- Witness for C2: the round-trip at a concrete log and value. -/
theorem C2_round_trip_witness :
    ((Log.newLog ⟨1024⟩).append helloWorld).2.read
        ((Log.newLog ⟨1024⟩).append helloWorld).1 =
      Except.ok ⟨helloWorld, ((Log.newLog ⟨1024⟩).append helloWorld).1⟩ :=
  (C2_round_trip (Log.newLog ⟨1024⟩) (Log.newLog_WF ⟨1024⟩) helloWorld).1

/-- C3: boundary — after any sequence of appends to a fresh log (including
none), reading one past the highest assigned offset fails with the
distinguished OffsetOutOfRange error (an `Except.error`, so no record is
returned); and on any well-formed log a read fails with OffsetOutOfRange
exactly when the requested offset is at or above the next unassigned offset
or below the lowest retained offset. -/
theorem C3_boundary :
    (∀ (c : Config) (vs : List (List Nat)),
      (((Log.newLog c).appendAll vs).2).read
          ((((Log.newLog c).appendAll vs).2).highestOffset + 1) =
        .error .offsetOutOfRange) ∧
    (∀ l : Log, l.WF → ∀ off,
      l.read off = .error .offsetOutOfRange ↔
        (l.nextOffset ≤ off ∨ off < l.lowestOffset)) := by
  constructor
  · intro c vs
    apply Log.read_oor
    left
    unfold Log.highestOffset
    omega
  · intro l h off
    exact l.read_oor_iff off h

/-- Witness for C3: the boundary read on a one-record log, and the
classification on a fresh empty log at offset 1. -/
theorem C3_boundary_witness :
    ((((Log.newLog ⟨4⟩).appendAll [helloWorld]).2).read
        ((((Log.newLog ⟨4⟩).appendAll [helloWorld]).2).highestOffset + 1) =
      .error .offsetOutOfRange) ∧
    ((Log.newLog ⟨4⟩).read 1 = .error .offsetOutOfRange ↔
      ((Log.newLog ⟨4⟩).nextOffset ≤ 1 ∨ 1 < (Log.newLog ⟨4⟩).lowestOffset)) :=
  ⟨C3_boundary.1 ⟨4⟩ [helloWorld], C3_boundary.2 (Log.newLog ⟨4⟩) ⟨rfl, trivial⟩ 1⟩

/-- C10: for a fixed `Authorizer` (its policy loaded once at construction),
the `Authorize` method is stateless and deterministic: a call returns the
receiver unchanged, and a second call with the same subject, object and
action returns the same verdict — in particular the same status code. -/
theorem C10_authorize_deterministic (a : Authorizer) (subject object action : String) :
    (a.authorize subject object action).2 = a ∧
    (a.authorize subject object action).1 =
      ((a.authorize subject object action).2.authorize subject object action).1 ∧
    ((a.authorize subject object action).1).map Status.code =
      (((a.authorize subject object action).2.authorize subject object action).1).map
        Status.code :=
  ⟨rfl, rfl, rfl⟩

/-- C4: authorization gating — under a policy that denies the subject both
actions, produce and consume return a PermissionDenied-class error (not a
generic one); the erroring result carries no response payload (it is an
`Except.error`); and the denied produce leaves the server, in particular the
log and its stored record values, unchanged. -/
theorem C4_authorization_gating (srv : Server) (subject : String)
    (v : List Nat) (off : Nat)
    (hp : srv.authorizer.enforcer subject logObject produceAction = .ok false)
    (hc : srv.authorizer.enforcer subject logObject consumeAction = .ok false) :
    (∃ st, (srv.produce subject v).1 = .error st ∧ st.code = Code.permissionDenied) ∧
    (srv.produce subject v).2 = srv ∧
    (srv.produce subject v).2.commitLog.values = srv.commitLog.values ∧
    (∃ st, srv.consume subject off = .error st ∧ st.code = Code.permissionDenied) := by
  have h1 : Authorize srv.authorizer.enforcer subject logObject produceAction =
      some ⟨Code.permissionDenied,
        subject ++ " not permitted to " ++ logObject ++ " to " ++ produceAction⟩ := by
    unfold Authorize
    rw [hp]
  have h2 : Authorize srv.authorizer.enforcer subject logObject consumeAction =
      some ⟨Code.permissionDenied,
        subject ++ " not permitted to " ++ logObject ++ " to " ++ consumeAction⟩ := by
    unfold Authorize
    rw [hc]
  have hprod : srv.produce subject v =
      (.error ⟨Code.permissionDenied,
        subject ++ " not permitted to " ++ logObject ++ " to " ++ produceAction⟩, srv) := by
    unfold Server.produce
    rw [h1]
  have hcons : srv.consume subject off =
      .error ⟨Code.permissionDenied,
        subject ++ " not permitted to " ++ logObject ++ " to " ++ consumeAction⟩ := by
    unfold Server.consume
    rw [h2]
  exact ⟨⟨_, by rw [hprod], rfl⟩, by rw [hprod], by rw [hprod], ⟨_, hcons, rfl⟩⟩

/-- Witness for C4: the gate at the concrete `nobody` identity on a fresh
deny-all server. -/
theorem C4_authorization_gating_witness :
    (∃ st, ((nobodyServer ⟨8⟩).produce "nobody" helloWorld).1 = .error st ∧
      st.code = Code.permissionDenied) ∧
    ((nobodyServer ⟨8⟩).produce "nobody" helloWorld).2 = nobodyServer ⟨8⟩ ∧
    ((nobodyServer ⟨8⟩).produce "nobody" helloWorld).2.commitLog.values =
      (nobodyServer ⟨8⟩).commitLog.values ∧
    (∃ st, (nobodyServer ⟨8⟩).consume "nobody" 0 = .error st ∧
      st.code = Code.permissionDenied) :=
  C4_authorization_gating (nobodyServer ⟨8⟩) "nobody" helloWorld 0 rfl rfl

/-- C5: streaming order — for a permitted subject, the produce-stream answers
request i with the i-th consecutively assigned offset (counting from the
log's next offset); concretely, streaming the two test records through a
fresh server answers offsets 0 then 1, and the consume-stream loop started at
offset 0 then emits the first record at offset 0 and advances to emit the
second at offset 1. -/
theorem C5_streaming_order (srv : Server) (subject : String) (vs : List (List Nat))
    (h : Authorize srv.authorizer.enforcer subject logObject produceAction = none) :
    ((srv.produceStream subject vs).1 =
      (List.range' srv.commitLog.nextOffset vs.length).map
        (fun o => Except.ok (ProduceResponse.mk o))) ∧
    ((rootServer ⟨1024⟩).produceStream "root" [msgA, msgB]).1 =
      [.ok ⟨0⟩, .ok ⟨1⟩] ∧
    (((rootServer ⟨1024⟩).produceStream "root" [msgA, msgB]).2.consumeStreamStep
        "root" false 0 = .send ⟨⟨msgA, 0⟩⟩ 1) ∧
    (((rootServer ⟨1024⟩).produceStream "root" [msgA, msgB]).2.consumeStreamStep
        "root" false 1 = .send ⟨⟨msgB, 1⟩⟩ 2) :=
  ⟨srv.produceStream_responses subject vs h, rfl, rfl, rfl⟩

/-- Witness for C5: the order-preserving stream at the concrete two-record
input. -/
theorem C5_streaming_order_witness :
    ((rootServer ⟨1024⟩).produceStream "root" [msgA, msgB]).1 =
      (List.range' (rootServer ⟨1024⟩).commitLog.nextOffset [msgA, msgB].length).map
        (fun o => Except.ok (ProduceResponse.mk o)) :=
  (C5_streaming_order (rootServer ⟨1024⟩) "root" [msgA, msgB] rfl).1

/-- C6, counterexample: the program's own entrypoint (`cmd/server/main.go`)
serves plain HTTP on ":8080" — no TLS, let alone mutual TLS — so it is not
the case that every client connection served by the program is over a
mutually authenticated encrypted channel. -/
theorem C6_main_serves_plain_http :
    mainHTTPServer.transport = Transport.plainHTTP ∧
    Transport.plainHTTP ≠ Transport.mutualTLS :=
  ⟨rfl, fun h => Transport.noConfusion h⟩

/-- C6 (amended): the gRPC server exercised by the test sources is configured
for mutually authenticated TLS (server certificate pair plus a client CA for
verification), and the handlers take their authorization decision on exactly
the channel-derived subject identity; the `cmd/server` entrypoint, however,
serves plain HTTP without any TLS. -/
theorem C6_transport (srv : Server) (subject : String) (v : List Nat) (st : Status)
    (h : Authorize srv.authorizer.enforcer subject logObject produceAction = some st) :
    TLSConfig.transport setupTestServerTLS = Transport.mutualTLS ∧
    mainHTTPServer.transport = Transport.plainHTTP ∧
    (srv.produce subject v).1 = .error st := by
  refine ⟨by decide, rfl, ?_⟩
  unfold Server.produce
  rw [h]

/-- Witness for C6: the transports, and the denied produce of the `nobody`
identity. -/
theorem C6_transport_witness :
    TLSConfig.transport setupTestServerTLS = Transport.mutualTLS ∧
    mainHTTPServer.transport = Transport.plainHTTP ∧
    ((nobodyServer ⟨8⟩).produce "nobody" helloWorld).1 =
      .error ⟨Code.permissionDenied,
        "nobody" ++ " not permitted to " ++ logObject ++ " to " ++ produceAction⟩ :=
  C6_transport (nobodyServer ⟨8⟩) "nobody" helloWorld
    ⟨Code.permissionDenied,
      "nobody" ++ " not permitted to " ++ logObject ++ " to " ++ produceAction⟩ rfl

/-- C7, counterexample: with two-entry segments and three appended records,
`Truncate 1` removes no segment (the only closed segment has next offset
2 > 1), so the record at offset 0 — an offset strictly below the truncation
point 1 — still reads back successfully instead of failing with
OffsetOutOfRange, contradicting "after Truncate(k), reads of offsets below k
fail". -/
theorem C7_truncate_keeps_low_offset :
    (truncDemoLog.truncate 1).read 0 = Except.ok ⟨[0], 0⟩ ∧
    (truncDemoLog.truncate 1).read 0 ≠ Except.error LogError.offsetOutOfRange :=
  ⟨rfl, fun h => Except.noConfusion h⟩

/-- C7 (amended): `Truncate(lowest)` removes exactly those segments whose
`next_offset` is at most `lowest`, except that the active segment is never
removed even if it qualifies; after `Truncate(k)`, reads of offsets below the
new lowest retained offset fail with the OffsetOutOfRange class, while every
offset from the new lowest retained offset up to the pre-truncation end of
the log reads back exactly as before truncation. -/
theorem C7_truncate (l : Log) (h : l.WF) (k : Nat) :
    ((l.truncate k).active = l.active) ∧
    ((l.truncate k).closed = l.closed.filter (fun s => decide (k < s.nextOffset))) ∧
    (∀ s ∈ (l.truncate k).segments, k < s.nextOffset ∨ s = l.active) ∧
    (∀ o, o < (l.truncate k).lowestOffset →
      (l.truncate k).read o = .error .offsetOutOfRange) ∧
    (∀ o, (l.truncate k).lowestOffset ≤ o → o < l.nextOffset →
      (l.truncate k).read o = l.read o) := by
  refine ⟨rfl, rfl, ?_, ?_, ?_⟩
  · intro s hs
    have hs' : s ∈ (l.truncate k).closed ++ [(l.truncate k).active] := hs
    rcases List.mem_append.1 hs' with h1 | h1
    · left
      have h2 := List.mem_filter.1 h1
      simpa using h2.2
    · right
      simpa using h1
  · intro o ho
    exact (l.truncate k).read_oor o (Or.inr ho)
  · intro o h1 h2
    exact l.truncate_read_eq h k o h1 h2

/-- Witness for C7: the amended truncation behavior on the concrete
demonstration log at truncation point 1. -/
theorem C7_truncate_witness :
    ((truncDemoLog.truncate 1).active = truncDemoLog.active) ∧
    ((truncDemoLog.truncate 1).closed =
      truncDemoLog.closed.filter (fun s => decide (1 < s.nextOffset))) ∧
    (∀ s ∈ (truncDemoLog.truncate 1).segments,
      1 < s.nextOffset ∨ s = truncDemoLog.active) ∧
    (∀ o, o < (truncDemoLog.truncate 1).lowestOffset →
      (truncDemoLog.truncate 1).read o = .error .offsetOutOfRange) ∧
    (∀ o, (truncDemoLog.truncate 1).lowestOffset ≤ o → o < truncDemoLog.nextOffset →
      (truncDemoLog.truncate 1).read o = truncDemoLog.read o) :=
  C7_truncate truncDemoLog
    (Log.appendAll_WF (Log.newLog ⟨2⟩) [[0], [1], [2]] (Log.newLog_WF ⟨2⟩)) 1

/-- C8: offset monotonicity — N sequential appends to a fresh empty log
assign offsets exactly 0, 1, ..., N-1 in order, for every configuration, so
in particular across segment-rotation boundaries: with one-entry segments,
three appends still assign [0, 1, 2] while the log has rotated into four
segments. -/
theorem C8_offset_monotonicity :
    (∀ (c : Config) (vs : List (List Nat)),
      ((Log.newLog c).appendAll vs).1 = List.range vs.length) ∧
    ((Log.newLog ⟨1⟩).appendAll [[0], [1], [2]]).1 = [0, 1, 2] ∧
    ((Log.newLog ⟨1⟩).appendAll [[0], [1], [2]]).2.segments.length = 4 := by
  refine ⟨fun c vs => ?_, rfl, rfl⟩
  rw [Log.appendAll_offsets, Log.newLog_nextOffset, List.range_eq_range']

/-- C9: one iteration of the consume-stream loop never terminates the stream
because of an OffsetOutOfRange result: when not cancelled, an
OffsetOutOfRange error makes it wait and retry the same offset, while any
other error terminates the stream carrying exactly that error; client
cancellation always terminates the stream. -/
theorem C9_consume_stream_retry (srv : Server) (subject : String)
    (cancelled : Bool) (offset : Nat) :
    (∀ st, srv.consumeStreamStep subject cancelled offset =
        .terminated (some st) → st.code ≠ Code.offsetOutOfRange) ∧
    (∀ st, cancelled = false → srv.consume subject offset = .error st →
      st.code = Code.offsetOutOfRange →
      srv.consumeStreamStep subject cancelled offset = .waitRetry offset) ∧
    (∀ st, cancelled = false → srv.consume subject offset = .error st →
      st.code ≠ Code.offsetOutOfRange →
      srv.consumeStreamStep subject cancelled offset = .terminated (some st)) ∧
    (cancelled = true →
      srv.consumeStreamStep subject cancelled offset = .terminated none) := by
  unfold Server.consumeStreamStep
  cases cancelled with
  | true =>
      refine ⟨fun st h => ?_, fun st h => ?_, fun st h => ?_, fun _ => rfl⟩
      · simp at h
      · cases h
      · cases h
  | false =>
      simp only [Bool.false_eq_true, if_false]
      cases hcons : srv.consume subject offset with
      | ok r =>
          refine ⟨fun st h => ?_, fun st h hc => ?_, fun st h hc => ?_, fun h => ?_⟩
          · simp at h
          · cases hc
          · cases hc
          · cases h
      | error st' =>
          refine ⟨fun st h => ?_, fun st h hc hcode => ?_, fun st h hc hcode => ?_,
            fun h => ?_⟩
          · dsimp only at h
            by_cases hq : st'.code = Code.offsetOutOfRange
            · rw [if_pos hq] at h
              cases h
            · rw [if_neg hq] at h
              cases h
              exact hq
          · cases hc
            dsimp only
            rw [if_pos hcode]
          · cases hc
            dsimp only
            rw [if_neg hcode]
          · cases h

/-- Witness for C9: the four behaviors at concrete servers — a denial
terminates with a non-OffsetOutOfRange status, an empty log makes the loop
wait and retry offset 0, and cancellation terminates. -/
theorem C9_consume_stream_retry_witness :
    ((⟨Code.permissionDenied,
        "nobody" ++ " not permitted to " ++ logObject ++ " to " ++ consumeAction⟩ :
      Status).code ≠ Code.offsetOutOfRange) ∧
    ((rootServer ⟨8⟩).consumeStreamStep "root" false 0 = .waitRetry 0) ∧
    ((nobodyServer ⟨8⟩).consumeStreamStep "nobody" false 0 =
      .terminated (some ⟨Code.permissionDenied,
        "nobody" ++ " not permitted to " ++ logObject ++ " to " ++ consumeAction⟩)) ∧
    ((rootServer ⟨8⟩).consumeStreamStep "root" true 0 = .terminated none) :=
  ⟨(C9_consume_stream_retry (nobodyServer ⟨8⟩) "nobody" false 0).1 _ rfl,
   (C9_consume_stream_retry (rootServer ⟨8⟩) "root" false 0).2.1 _ rfl rfl rfl,
   (C9_consume_stream_retry (nobodyServer ⟨8⟩) "nobody" false 0).2.2.1 _ rfl rfl
     (fun h => Code.noConfusion h),
   (C9_consume_stream_retry (rootServer ⟨8⟩) "root" true 0).2.2.2 rfl⟩

end Proglog
